import Mathlib

/-!
Verification development for the pocket-detection core of the protein-visualizer
repository (backend/pocket.py).

The Python source is shallowly embedded as follows.

Numbers: Python floats are idealized as rational numbers.  The external float
library functions sqrt, tanh and exp (numpy.linalg.norm uses sqrt) are not part
of the repository; they are modelled by an abstract record of functions
`MathFns`, over which all theorems are universally quantified.  All float values
are rationals, so arbitrary rational-valued functions soundly over-approximate
them.

External libraries: scipy.spatial.Delaunay is modelled as an abstract oracle
`List Point -> Option (List Simplex)` (none models the exception caught at the
call site).  scipy.spatial.cKDTree.query_ball_point returns all points whose
Euclidean distance from the query point is at most r; this is embedded exactly
as the decidable comparison sqDist <= r^2 together with 0 <= r, which avoids
square roots.  numpy.linalg.solve on a 3x3 system is embedded by Cramer's rule;
it fails exactly when the determinant is zero, matching exact-singularity
detection.  math.isnan is constantly false on exact rationals, so the
`math.isnan(r)` guard of the source disappears.

Python dicts for atoms are embedded as records with Option-valued fields; a
missing key raises, which is modelled by the Except monad.  An uncaught Python
exception escaping Scientific_Pockets is an `Except.error` value, while the
structured error dictionaries the function returns on purpose are `SPResult.errObj`.

Python's set.pop() removes an arbitrary element of the DBSCAN worklist; the
choice is modelled by a strategy function sigma picking a position in the
worklist.  The worklist recursion is driven by an explicit fuel argument that is
provably sufficient (see expand_spec below).  Python's stable list.sort with a
key is embedded as a stable insertion sort by the same key; stable sorts agree
on every input.  Iteration order over the Python set of cluster labels, and over
the set of residue keys, is implementation defined in CPython; it is embedded as
ascending label order and first-insertion order respectively, which only fixes
the order of fields whose order the source leaves unspecified.
-/

attribute [local semireducible] Rat.add Rat.mul Rat.sub Rat.inv

namespace PV

/-- A 3D point with rational coordinates. -/
abbrev Point := ℚ × ℚ × ℚ

/-- Squared Euclidean distance between two points. -/
def sqDist (p q : Point) : ℚ :=
  (p.1 - q.1)^2 + (p.2.1 - q.2.1)^2 + (p.2.2 - q.2.2)^2

/-- Membership of p in the closed ball of radius r around c, the exact meaning
of a cKDTree.query_ball_point hit (empty for negative r). -/
def inBall (c : Point) (r : ℚ) (p : Point) : Bool :=
  decide (0 ≤ r) && decide (sqDist c p ≤ r ^ 2)

/-- tree.query_ball_point(c, r) over the point list the tree was built from:
the indices of all points within distance r of c, in ascending order. -/
def queryBall (pts : List Point) (c : Point) (r : ℚ) : List ℕ :=
  (List.range pts.length).filter (fun j => inBall c r (pts.getD j default))

/-- Kyte-Doolittle hydrophobicity scale, dict KD of the source. -/
def KD : List (String × ℚ) :=
  [("A", 9/5), ("R", -9/2), ("N", -7/2), ("D", -7/2), ("C", 5/2),
   ("Q", -7/2), ("E", -7/2), ("G", -2/5), ("H", -16/5), ("I", 9/2),
   ("L", 19/5), ("K", -39/10), ("M", 19/10), ("F", 14/5), ("P", -8/5),
   ("S", -4/5), ("T", -7/10), ("W", -9/10), ("Y", -13/10), ("V", 21/5)]

/-- 3-letter to 1-letter amino acid conversion, dict AA3 of the source. -/
def AA3 : List (String × String) :=
  [("ALA", "A"), ("ARG", "R"), ("ASN", "N"), ("ASP", "D"), ("CYS", "C"),
   ("GLN", "Q"), ("GLU", "E"), ("GLY", "G"), ("HIS", "H"), ("ILE", "I"),
   ("LEU", "L"), ("LYS", "K"), ("MET", "M"), ("PHE", "F"), ("PRO", "P"),
   ("SER", "S"), ("THR", "T"), ("TRP", "W"), ("TYR", "Y"), ("VAL", "V")]

/-- Python str.upper on the ASCII strings that occur as residue names,
character by character (String.mk keeps the embedding kernel-computable). -/
def pyUpper (s : String) : String := ⟨s.data.map Char.toUpper⟩

/-- An atom dictionary from mol["atoms"]: every field is optional because a
Python dict may lack any key. -/
structure PyAtom where
  x : Option ℚ
  y : Option ℚ
  z : Option ℚ
  chain : Option String
  resseq : Option ℤ
  resname : Option String
deriving DecidableEq

/-- A well-formed atom record: all six dictionary keys present. -/
def wellFormed (a : PyAtom) : Prop :=
  a.x.isSome ∧ a.y.isSome ∧ a.z.isSome ∧ a.chain.isSome ∧ a.resseq.isSome ∧ a.resname.isSome

instance (a : PyAtom) : Decidable (wellFormed a) := by
  unfold wellFormed
  infer_instance

/-- An atom record whose residue keys have been read successfully (the load
loop of load_atoms reads chain, resseq and resname of every atom; x, y, z are
first read later, when the coordinate array is built). -/
structure Atom where
  x : Option ℚ
  y : Option ℚ
  z : Option ℚ
  chain : String
  resseq : ℤ
  resname : String
deriving DecidableEq

instance : Inhabited Atom := ⟨⟨none, none, none, "", 0, ""⟩⟩

/-- Mapping a fallible accessor over a list, left to right, stopping at the
first raised exception: the evaluation order of a Python loop or list
comprehension whose body may raise. -/
def mapME {α β : Type} (f : α → Except String β) : List α → Except String (List β)
  | [] => .ok []
  | a :: t =>
    match f a with
    | .error e => .error e
    | .ok b =>
      match mapME f t with
      | .error e => .error e
      | .ok bs => .ok (b :: bs)

/-- Reading a["chain"], a["resseq"], a["resname"] left to right; a missing key
raises KeyError. -/
def toAtom (a : PyAtom) : Except String Atom :=
  match a.chain with
  | none => .error "KeyError: chain"
  | some ch =>
    match a.resseq with
    | none => .error "KeyError: resseq"
    | some rs =>
      match a.resname with
      | none => .error "KeyError: resname"
      | some rn => .ok ⟨a.x, a.y, a.z, ch, rs, rn⟩

/-- The residue key (chain, resseq, resname) of an atom. -/
def resKey (a : Atom) : String × ℤ × String := (a.chain, a.resseq, a.resname)

/-- residues[key].append(idx) on the association-list embedding of the
defaultdict: append the index to the entry of the key, creating it if absent. -/
def addRes : List ((String × ℤ × String) × List ℕ) → (String × ℤ × String) → ℕ →
    List ((String × ℤ × String) × List ℕ)
  | [], k, i => [(k, [i])]
  | (k', is) :: t, k, i =>
    if k' = k then (k', is ++ [i]) :: t else (k', is) :: addRes t k i

/-- The residues defaultdict built by the mol["atoms"] branch of load_atoms. -/
def buildResidues (atoms : List Atom) : List ((String × ℤ × String) × List ℕ) :=
  atoms.enum.foldl (fun m p => addRes m (resKey p.2) p.1) []

/-- load_atoms on the mol["atoms"] branch (the .pdb branch performs file I/O
and is outside this embedding): reads each atom's residue keys in order and
builds the residues map; the atom list itself is returned unchanged. -/
def load_atoms (mol : List PyAtom) :
    Except String (List Atom × List ((String × ℤ × String) × List ℕ)) :=
  match mapME toAtom mol with
  | .error e => .error e
  | .ok atoms => .ok (atoms, buildResidues atoms)

/-- Reading a["x"], a["y"], a["z"] of one atom, left to right; a missing
coordinate key raises KeyError. -/
def coordOf (a : Atom) : Except String Point :=
  match a.x with
  | none => .error "KeyError: x"
  | some xv =>
    match a.y with
    | none => .error "KeyError: y"
    | some yv =>
      match a.z with
      | none => .error "KeyError: z"
      | some zv => .ok ((xv, yv, zv) : Point)

/-- coords = np.array([[a["x"], a["y"], a["z"]] for a in atoms]). -/
def buildCoords (atoms : List Atom) : Except String (List Point) :=
  mapME coordOf atoms

/-- The external float math functions used by the source (math.tanh, math.exp,
and the square root inside numpy.linalg.norm).  Any rational-valued functions:
every IEEE float is a rational, so this over-approximates the library. -/
structure MathFns where
  sqrt : ℚ → ℚ
  tanh : ℚ → ℚ
  exp : ℚ → ℚ

/-- Determinant of the 3x3 matrix with the given rows. -/
def det3 (r1 r2 r3 : Point) : ℚ :=
  r1.1 * (r2.2.1 * r3.2.2 - r2.2.2 * r3.2.1)
  - r1.2.1 * (r2.1 * r3.2.2 - r2.2.2 * r3.1)
  + r1.2.2 * (r2.1 * r3.2.1 - r2.2.1 * r3.1)

/-- Squared Euclidean norm. -/
def sqNorm (p : Point) : ℚ := p.1^2 + p.2.1^2 + p.2.2^2

/-- circumsphere(p) of the source: solve 2(p_i - p0) c = |p_i|^2 - |p0|^2 for
the center by Cramer's rule; the linear solver fails exactly on a singular
matrix, returning none (the None, None of the source).  The radius is the norm
of c - p0, whose square root is taken by the abstract M.sqrt. -/
def circumsphere (M : MathFns) (p0 p1 p2 p3 : Point) : Option (Point × ℚ) :=
  let r1 : Point := (2*(p1.1 - p0.1), 2*(p1.2.1 - p0.2.1), 2*(p1.2.2 - p0.2.2))
  let r2 : Point := (2*(p2.1 - p0.1), 2*(p2.2.1 - p0.2.1), 2*(p2.2.2 - p0.2.2))
  let r3 : Point := (2*(p3.1 - p0.1), 2*(p3.2.1 - p0.2.1), 2*(p3.2.2 - p0.2.2))
  let b : Point := (sqNorm p1 - sqNorm p0, sqNorm p2 - sqNorm p0, sqNorm p3 - sqNorm p0)
  let d := det3 r1 r2 r3
  if d = 0 then none
  else
    let c : Point :=
      (det3 (b.1, r1.2.1, r1.2.2) (b.2.1, r2.2.1, r2.2.2) (b.2.2, r3.2.1, r3.2.2) / d,
       det3 (r1.1, b.1, r1.2.2) (r2.1, b.2.1, r2.2.2) (r3.1, b.2.2, r3.2.2) / d,
       det3 (r1.1, r1.2.1, b.1) (r2.1, r2.2.1, b.2.1) (r3.1, r3.2.1, b.2.2) / d)
    some (c, M.sqrt (sqDist c p0))

/-- A Delaunay tetrahedron: four indices into the coordinate list. -/
abbrev Simplex := ℕ × ℕ × ℕ × ℕ

/-- The alpha-sphere filter loop of Scientific_Pockets: for every simplex
compute the circumsphere, skip singular ones, and retain (center, radius,
simplex) exactly when min_radius <= r <= max_radius.  This carries the three
parallel lists centers, radii, simplex_ids of the source zipped together. -/
def alphaSpheres (M : MathFns) (coords : List Point) (simplices : List Simplex)
    (min_radius max_radius : ℚ) : List (Point × ℚ × Simplex) :=
  simplices.filterMap (fun s =>
    match circumsphere M (coords.getD s.1 default) (coords.getD s.2.1 default)
        (coords.getD s.2.2.1 default) (coords.getD s.2.2.2 default) with
    | none => none
    | some cr =>
      if min_radius ≤ cr.2 ∧ cr.2 ≤ max_radius then some (cr.1, cr.2, s) else none)

/-- The neighbourhood query tree.query_ball_point(points[x], eps) of cluster. -/
def nbhd (pts : List Point) (eps : ℚ) (x : ℕ) : List ℕ :=
  queryBall pts (pts.getD x default) eps

/-- The while-stack expansion loop of cluster.  sigma models the arbitrary
choice made by Python's set.pop (reduced mod the worklist length); the worklist
is a list, duplicate entries are popped and skipped exactly like re-added set
elements.  fuel is an upper bound on the number of iterations; every call site
passes a provably sufficient amount (expand_spec). -/
def expand (σ : List ℕ → ℕ) (pts : List Point) (eps : ℚ) (min_pts : ℕ) (cid : ℕ) :
    ℕ → List ℕ → List (Option ℕ) → List (Option ℕ)
  | 0, _, labels => labels
  | fuel + 1, stack, labels =>
    if stack.length = 0 then labels
    else
      let k := σ stack % stack.length
      let j := stack.getD k 0
      let stack1 := stack.eraseIdx k
      if labels.getD j (some 0) = none then
        let labels1 := labels.set j (some cid)
        let new := nbhd pts eps j
        if min_pts ≤ new.length then
          expand σ pts eps min_pts cid fuel (stack1 ++ new) labels1
        else
          expand σ pts eps min_pts cid fuel stack1 labels1
      else
        expand σ pts eps min_pts cid fuel stack1 labels

/-- One iteration of the outer for-loop of cluster at index i, on the state
(labels, cid): skip labelled points, leave noise at -1 (none), otherwise start
cluster cid at i and expand it. -/
def clusterStep (σ : List ℕ → ℕ) (pts : List Point) (eps : ℚ) (min_pts : ℕ)
    (st : List (Option ℕ) × ℕ) (i : ℕ) : List (Option ℕ) × ℕ :=
  if st.1.getD i (some 0) = none then
    let nb := nbhd pts eps i
    if nb.length < min_pts then st
    else
      let labels1 := st.1.set i (some st.2)
      (expand σ pts eps min_pts st.2
        (nb.length + labels1.countP Option.isNone * pts.length) nb labels1,
       st.2 + 1)
  else st

/-- cluster(points, eps=4.0, min_pts=5) of the source.  Labels are none for -1
(noise or never reached) and some cid for members of cluster cid. -/
def cluster (σ : List ℕ → ℕ) (points : List Point) (eps : ℚ := 4) (min_pts : ℕ := 5) :
    List (Option ℕ) :=
  if points.length = 0 then []
  else ((List.range points.length).foldl (clusterStep σ points eps min_pts)
    (List.replicate points.length none, 0)).1

/-- The distinct elements of a list in order of first appearance: the contents
of a Python set built by successive adds. -/
def firstDedupAux [DecidableEq α] (seen : List α) : List α → List α
  | [] => []
  | a :: t => if a ∈ seen then firstDedupAux seen t else a :: firstDedupAux (a :: seen) t

/-- firstDedupAux from an empty memory. -/
def firstDedup [DecidableEq α] (l : List α) : List α := firstDedupAux [] l

/-- Insert a into an already key-sorted list, after all elements of key at most
key a: one step of a stable ascending insertion sort. -/
def insertK (key : α → ℚ) (a : α) : List α → List α
  | [] => [a]
  | b :: t => if key b ≤ key a then b :: insertK key a t else a :: b :: t

/-- Stable ascending sort by a rational key, the behaviour of Python's
list.sort(key=...): stable sorts are unique, so this equals the source's
Timsort on every input. -/
def sortByKey (key : α → ℚ) (l : List α) : List α :=
  l.foldl (fun acc a => insertK key a acc) []

/-- Maximum of a rational list (0 on the empty list, which no caller reaches). -/
def listMaxQ : List ℚ → ℚ
  | [] => 0
  | a :: t => t.foldl max a

/-- Minimum of a rational list (0 on the empty list, which no caller reaches). -/
def listMinQ : List ℚ → ℚ
  | [] => 0
  | a :: t => t.foldl min a

/-- Maximum of a list of naturals (0 on the empty list, which no caller reaches). -/
def listMaxN : List ℕ → ℕ
  | [] => 0
  | a :: t => t.foldl max a

/-- Minimum of a list of naturals (0 on the empty list, which no caller reaches). -/
def listMinN : List ℕ → ℕ
  | [] => 0
  | a :: t => t.foldl min a

/-- np.mean of a rational list (unreachable on the empty list). -/
def meanQ (l : List ℚ) : ℚ := l.sum / (l.length : ℚ)

/-- np.mean(axis=0): the componentwise mean of a point list. -/
def centroid (l : List Point) : Point :=
  (meanQ (l.map (·.1)), meanQ (l.map (·.2.1)), meanQ (l.map (·.2.2)))

/-- np.arange(start, stop, step) for a positive step: start, start+step, ...
strictly below stop; numpy documents the length as ceil((stop-start)/step). -/
def arange (start stop step : ℚ) : List ℚ :=
  if 0 < step then (List.range (⌈(stop - start)/step⌉).toNat).map (fun k => start + (k : ℚ) * step)
  else []

/-- The inner test of voxel_volume: some sphere among the candidates returned
by the radius-rmax ball query contains the voxel point. -/
def voxelHit (centers : List Point) (radii : List ℚ) (rmax : ℚ) (pt : Point) : Bool :=
  (queryBall centers pt rmax).any (fun i => inBall (centers.getD i default) (radii.getD i 0) pt)

/-- voxel_volume(centers, radii, resolution=0.75) of the source: voxelize the
bounding box padded by max radius + 1 and count voxel centers lying in some
sphere; each hit contributes resolution^3. -/
def voxel_volume (centers : List Point) (radii : List ℚ) (resolution : ℚ := 3/4) : ℚ :=
  if centers.length = 0 then 0
  else
    let rmax := listMaxQ radii
    let xs := arange (listMinQ (centers.map (·.1)) - rmax - 1) (listMaxQ (centers.map (·.1)) + rmax + 1) resolution
    let ys := arange (listMinQ (centers.map (·.2.1)) - rmax - 1) (listMaxQ (centers.map (·.2.1)) + rmax + 1) resolution
    let zs := arange (listMinQ (centers.map (·.2.2)) - rmax - 1) (listMaxQ (centers.map (·.2.2)) + rmax + 1) resolution
    let grid := xs.flatMap (fun xv => ys.flatMap (fun yv => zs.map (fun zv => ((xv, yv, zv) : Point))))
    ((grid.countP (voxelHit centers radii rmax) : ℚ)) * resolution^3

/-- One output pocket dictionary. -/
structure Pocket where
  id : ℕ
  center : Point
  n_spheres : ℕ
  avg_sphere_radius : ℚ
  volume : ℚ
  residues : List String
  avg_hydrophobicity : ℚ
  polar_frac : ℚ
  solvent_exposure : ℚ
  druggability : ℚ
deriving DecidableEq

/-- The output meta dictionary.  clusters is optional because the empty
alpha-sphere early return of the source builds a meta dict without that key. -/
structure MetaOut where
  alpha_spheres : ℕ
  clusters : Option ℕ
deriving DecidableEq

/-- A successful output value: the pockets list and the meta dictionary. -/
structure Output where
  pockets : List Pocket
  meta : MetaOut
deriving DecidableEq

/-- A value returned (not raised) by Scientific_Pockets: either the structured
error dictionary or a full output. -/
inductive SPResult where
  | errObj (msg : String)
  | ok (out : Output)
deriving DecidableEq

instance {ε α : Type} [DecidableEq ε] [DecidableEq α] : DecidableEq (Except ε α) := fun a b =>
  match a, b with
  | .error e, .error f => decidable_of_iff (e = f) (by simp)
  | .error _, .ok _ => isFalse (by simp)
  | .ok _, .error _ => isFalse (by simp)
  | .ok x, .ok y => decidable_of_iff (x = y) (by simp)

/-- The per-cluster body of the pocket loop of Scientific_Pockets, for cluster
label pid: member spheres, centroid, residue set, hydrophobicity and polarity,
solvent exposure, voxel volume and druggability, assembled into the pocket
dictionary. -/
def mkPocket (M : MathFns) (coords : List Point) (atoms : List Atom)
    (centers : List Point) (radii : List ℚ) (labels : List (Option ℕ)) (pid : ℕ) : Pocket :=
  let members := (List.range centers.length).filter (fun k => labels.getD k none = some pid)
  let sph := members.map (fun k => centers.getD k default)
  let rad := members.map (fun k => radii.getD k 0)
  let pocket_res := firstDedup ((sph.map (fun c =>
      (queryBall coords c (9/2)).map (fun idx => resKey (atoms.getD idx default)))).flatten)
  let hydros := pocket_res.filterMap (fun k =>
      match AA3.lookup (pyUpper k.2.2) with
      | none => none
      | some aa => KD.lookup aa)
  let polar := (hydros.filter (fun h => decide (h ≤ -(1/2)))).length
  let avg_h : ℚ := if hydros.length = 0 then 0 else meanQ hydros
  let polar_frac : ℚ := if hydros.length = 0 then 0 else (polar : ℚ) / (hydros.length : ℚ)
  let counts := sph.map (fun c => (queryBall coords c 8).length)
  let exposure : ℚ :=
    if listMaxN counts = listMinN counts then 0
    else 1 - (meanQ (counts.map (fun n => (n : ℚ))) - (listMinN counts : ℚ))
        / ((listMaxN counts : ℚ) - (listMinN counts : ℚ))
  let vol := voxel_volume sph rad (3/4)
  let size_score := M.tanh ((sph.length : ℚ) / 50)
  let hydro_pref := M.exp (-((avg_h - 3/2)^2) / (2 * (3/2 : ℚ)^2))
  let exposure_pref := 1 - |exposure - 2/5|
  let polarity_factor := 1 - polar_frac
  let drugg := max 0 (min 1 (size_score * hydro_pref * exposure_pref * polarity_factor))
  { id := pid, center := centroid sph, n_spheres := sph.length,
    avg_sphere_radius := meanQ rad, volume := vol,
    residues := pocket_res.map (fun k => k.2.2 ++ ":" ++ k.1 ++ toString k.2.1),
    avg_hydrophobicity := avg_h, polar_frac := polar_frac,
    solvent_exposure := exposure, druggability := drugg }

/-- The tail of Scientific_Pockets after at least one alpha-sphere survived:
build one pocket per non-noise label (CPython iterates this small-int set in
ascending order), sort by descending druggability (stable), and attach meta
with both keys. -/
def buildOutput (M : MathFns) (coords : List Point) (atoms : List Atom)
    (sph : List (Point × ℚ × Simplex)) (labels : List (Option ℕ)) : Output :=
  let centers := sph.map (·.1)
  let radii := sph.map (·.2.1)
  let pids := (List.range labels.length).filter (fun c => decide (some c ∈ labels))
  let pockets := pids.map (mkPocket M coords atoms centers radii labels)
  { pockets := sortByKey (fun p => -p.druggability) pockets,
    meta := { alpha_spheres := centers.length,
              clusters := some (firstDedup (labels.filterMap id)).length } }

/-- Scientific_Pockets(mol, min_radius=1.8, max_radius=6.0, eps=4.0,
min_samples=6) of the source, for a mol["atoms"] input.  M is the abstract
float library, delaunay the abstract triangulation oracle, sigma the set.pop
choice strategy.  Except.error models an uncaught Python exception crossing the
module boundary; SPResult.errObj models the structured error dictionaries. -/
def Scientific_Pockets (M : MathFns) (delaunay : List Point → Option (List Simplex))
    (σ : List ℕ → ℕ) (mol : List PyAtom)
    (min_radius : ℚ := 9/5) (max_radius : ℚ := 6) (eps : ℚ := 4) (min_samples : ℕ := 6) :
    Except String SPResult :=
  match load_atoms mol with
  | .error err => .error err
  | .ok ares =>
    match buildCoords ares.1 with
    | .error err => .error err
    | .ok coords =>
      if coords.length < 4 then .ok (.errObj "Too few atoms")
      else
        match delaunay coords with
        | none => .ok (.errObj "Delaunay triangulation failed")
        | some simplices =>
          if (alphaSpheres M coords simplices min_radius max_radius).length = 0 then
            .ok (.ok { pockets := [], meta := { alpha_spheres := 0, clusters := none } })
          else
            .ok (.ok (buildOutput M coords ares.1
              (alphaSpheres M coords simplices min_radius max_radius)
              (cluster σ ((alphaSpheres M coords simplices min_radius max_radius).map (·.1))
                eps min_samples)))


/-- A well-formed test atom on chain A, residue 1 ALA. -/
def mkA (x y z : ℚ) : PyAtom := ⟨some x, some y, some z, some "A", some 1, some "ALA"⟩

/-- Four well-formed atoms spanning a regular-corner tetrahedron. -/
def molT : List PyAtom := [mkA 0 0 0, mkA 1 0 0, mkA 0 1 0, mkA 0 0 1]

/-- Three well-formed atoms. -/
def mol3 : List PyAtom := [mkA 0 0 0, mkA 1 0 0, mkA 0 1 0]

/-- Four atoms the first of which lacks the x coordinate key. -/
def molBad : List PyAtom :=
  [⟨none, some 0, some 0, some "A", some 1, some "ALA"⟩, mkA 1 0 0, mkA 0 1 0, mkA 0 0 1]

/-- A triangulation oracle returning the single tetrahedron 0 1 2 3. -/
def d4 : List Point → Option (List Simplex) := fun _ => some [(0, 1, 2, 3)]

/-- A triangulation oracle that also returns a degenerate simplex first. -/
def d4deg : List Point → Option (List Simplex) := fun _ => some [(0, 0, 0, 0), (0, 1, 2, 3)]

/-- A concrete set.pop strategy: always pop the head of the worklist. -/
def σ0 : List ℕ → ℕ := fun _ => 0

/-- A concrete float library whose sqrt is constantly 0. -/
def M0 : MathFns := ⟨fun _ => 0, fun _ => 1, fun _ => 1⟩

/-- A concrete float library whose sqrt is constantly 2. -/
def M2 : MathFns := ⟨fun _ => 2, fun _ => 1, fun _ => 1⟩

/-- A concrete float library whose sqrt is constantly 100. -/
def M100 : MathFns := ⟨fun _ => 100, fun _ => 1, fun _ => 1⟩

/-- Five coincident points: a worst case for the default min_pts threshold. -/
def pts5 : List Point := List.replicate 5 ((0 : ℚ), (0 : ℚ), (0 : ℚ))

/-- Two points far apart, each its own cluster when min_pts is 1. -/
def pts2 : List Point := [((0 : ℚ), (0 : ℚ), (0 : ℚ)), ((10 : ℚ), (0 : ℚ), (0 : ℚ))]

/-- The pocket produced by the concrete run of c1_wit. -/
def pW : Pocket := ⟨0, (1/2, 1/2, 1/2), 1, 0, 0, ["ALA:A1"], 9/5, 0, 0, 3/5⟩

/-- The output produced by the concrete run of c1_wit. -/
def outW : Output := ⟨[pW], ⟨1, some 1⟩⟩

/-- The zero-alpha-sphere output value of the source's early return. -/
def outZ : Output := ⟨[], ⟨0, none⟩⟩

/-- The validated atom records of molT. -/
def atomsT : List Atom :=
  [⟨some 0, some 0, some 0, "A", 1, "ALA"⟩, ⟨some 1, some 0, some 0, "A", 1, "ALA"⟩,
   ⟨some 0, some 1, some 0, "A", 1, "ALA"⟩, ⟨some 0, some 0, some 1, "A", 1, "ALA"⟩]

/-- The residues map of molT. -/
def resT : List ((String × ℤ × String) × List ℕ) := [(("A", 1, "ALA"), [0, 1, 2, 3])]

/-- The coordinate list of molT. -/
def coordsT : List Point := [(0, 0, 0), (1, 0, 0), (0, 1, 0), (0, 0, 1)]

/-- The set of points labelled by one run of the expansion loop entered with
worklist stack and labelling L: the unlabelled members of the entry worklist,
closed under neighbourhoods of reached core points, restricted to unlabelled
points. -/
inductive Rch (pts : List Point) (eps : ℚ) (min_pts : ℕ) (stack : List ℕ)
    (L : List (Option ℕ)) : ℕ → Prop
  | init (j : ℕ) : j ∈ stack → L.getD j (some 0) = none → Rch pts eps min_pts stack L j
  | step (x j : ℕ) : Rch pts eps min_pts stack L x → min_pts ≤ (nbhd pts eps x).length →
      j ∈ nbhd pts eps x → L.getD j (some 0) = none → Rch pts eps min_pts stack L j

/-- A density-reachability chain in the sense of the spec: consecutive chain
points within eps of each other and every chain point a core point, that is,
with at least min_pts neighbours within eps. -/
inductive CoreChain (pts : List Point) (eps : ℚ) (min_pts : ℕ) : ℕ → ℕ → Prop
  | refl (x : ℕ) : min_pts ≤ (nbhd pts eps x).length → CoreChain pts eps min_pts x x
  | step (x y z : ℕ) : CoreChain pts eps min_pts x y → min_pts ≤ (nbhd pts eps z).length →
      z ∈ nbhd pts eps y → CoreChain pts eps min_pts x z

end PV

namespace PV

lemma getD_eq_getElem' {α : Type} (l : List α) (i : ℕ) (d : α) (h : i < l.length) :
    l.getD i d = l[i] := by
  simp [List.getD, List.getElem?_eq_getElem h]

lemma getD_eq_default {α : Type} (l : List α) (i : ℕ) (d : α) (h : l.length ≤ i) :
    l.getD i d = d := by
  simp [List.getD, List.getElem?_eq_none h]

lemma getD_irrel {α : Type} (l : List α) (i : ℕ) (d d' : α) (h : i < l.length) :
    l.getD i d = l.getD i d' := by
  rw [getD_eq_getElem' l i d h, getD_eq_getElem' l i d' h]

lemma lt_length_of_getD_none (l : List (Option ℕ)) (j : ℕ)
    (h : l.getD j (some 0) = none) : j < l.length := by
  by_contra hj
  push_neg at hj
  rw [getD_eq_default l j _ hj] at h
  exact Option.noConfusion h

lemma getD_set_self (l : List (Option ℕ)) (j : ℕ) (v : Option ℕ) (h : j < l.length) :
    (l.set j v).getD j (some 0) = v := by
  rw [getD_eq_getElem' _ _ _ (by simpa using h)]
  simp [List.getElem_set]

lemma getD_set_ne (l : List (Option ℕ)) (i j : ℕ) (v : Option ℕ) (h : i ≠ j) :
    (l.set j v).getD i (some 0) = l.getD i (some 0) := by
  rcases lt_or_ge i l.length with hi | hi
  · rw [getD_eq_getElem' _ _ _ (by simpa using hi), getD_eq_getElem' _ _ _ hi]
    simp [List.getElem_set, Ne.symm h]
  · rw [getD_eq_default _ _ _ (by simpa using hi), getD_eq_default _ _ _ hi]

lemma countP_set_none (l : List (Option ℕ)) (j : ℕ) (c : ℕ)
    (h : l.getD j (some 0) = none) :
    (l.set j (some c)).countP Option.isNone + 1 = l.countP Option.isNone := by
  induction l generalizing j with
  | nil => exact absurd h (by simp [List.getD])
  | cons a t ih =>
    cases j with
    | zero =>
      have ha : a = none := by simpa [List.getD] using h
      subst ha
      simp [List.countP_cons]
    | succ n =>
      have h' : t.getD n (some 0) = none := by simpa [List.getD] using h
      have := ih n h'
      simp only [List.set, List.countP_cons]
      omega

lemma getD_mem {α : Type} (l : List α) (k : ℕ) (d : α) (h : k < l.length) :
    l.getD k d ∈ l := by
  rw [getD_eq_getElem' _ _ _ h]
  exact List.getElem_mem h

lemma mem_of_mem_eraseIdx {α : Type} (l : List α) (k : ℕ) (x : α)
    (h : x ∈ l.eraseIdx k) : x ∈ l := by
  induction l generalizing k with
  | nil => simp [List.eraseIdx] at h
  | cons a t ih =>
    cases k with
    | zero => exact List.mem_cons_of_mem a (by simpa [List.eraseIdx] using h)
    | succ n =>
      rcases List.mem_cons.mp (by simpa [List.eraseIdx] using h) with hh | hm
      · exact hh ▸ List.mem_cons_self _ _
      · exact List.mem_cons_of_mem _ (ih n hm)

lemma mem_eraseIdx_of_ne {α : Type} (l : List α) (k : ℕ) (x : α)
    (hx : x ∈ l) (hk : k < l.length) (hne : x ≠ l.getD k x) : x ∈ l.eraseIdx k := by
  induction l generalizing k with
  | nil => cases hx
  | cons a t ih =>
    cases k with
    | zero =>
      rcases List.mem_cons.mp hx with hh | hm
      · have : x ≠ x := by
          refine fun hxx => (hh ▸ hne) ?_
          simp [List.getD]
        exact absurd rfl this
      · simpa [List.eraseIdx] using hm
    | succ n =>
      rcases List.mem_cons.mp hx with hh | hm
      · simp [List.eraseIdx, hh]
      · have hk' : n < t.length := by simpa using hk
        have hne' : x ≠ t.getD n x := by simpa [List.getD] using hne
        simp [List.eraseIdx, ih n hm hk' hne']

variable (pts : List Point) (eps : ℚ) (min_pts : ℕ)

lemma Rch_getD_none {stack : List ℕ} {L : List (Option ℕ)} {j : ℕ}
    (h : Rch pts eps min_pts stack L j) : L.getD j (some 0) = none := by
  cases h with
  | init _ _ h2 => exact h2
  | step _ _ _ _ _ h4 => exact h4

lemma Rch_nil {L : List (Option ℕ)} {j : ℕ} (h : Rch pts eps min_pts [] L j) : False := by
  induction h with
  | init _ h1 _ => cases h1
  | step _ _ _ _ _ _ ih => exact ih

lemma Rch_skip_iff {stack : List ℕ} {L : List (Option ℕ)} {k : ℕ} (hk : k < stack.length)
    (hj0 : L.getD (stack.getD k 0) (some 0) ≠ none) (j : ℕ) :
    Rch pts eps min_pts (stack.eraseIdx k) L j ↔ Rch pts eps min_pts stack L j := by
  constructor
  · intro h
    induction h with
    | init j h1 h2 => exact .init j (mem_of_mem_eraseIdx _ _ _ h1) h2
    | step x j _ h2 h3 h4 ih => exact .step x j ih h2 h3 h4
  · intro h
    induction h with
    | init j h1 h2 =>
      refine .init j (mem_eraseIdx_of_ne _ _ _ h1 hk ?_) h2
      intro he
      rw [he, getD_irrel _ _ _ 0 hk] at h2
      exact hj0 h2
    | step x j _ h2 h3 h4 ih => exact .step x j ih h2 h3 h4

lemma Rch_core_pop_to {stack : List ℕ} {L : List (Option ℕ)} {k : ℕ} {c : ℕ}
    (hk : k < stack.length)
    (hnone : L.getD (stack.getD k 0) (some 0) = none)
    (hcore : min_pts ≤ (nbhd pts eps (stack.getD k 0)).length) {j : ℕ}
    (h : Rch pts eps min_pts (stack.eraseIdx k ++ nbhd pts eps (stack.getD k 0))
      (L.set (stack.getD k 0) (some c)) j) :
    Rch pts eps min_pts stack L j := by
  have hj0lt : stack.getD k 0 < L.length := lt_length_of_getD_none L _ hnone
  have hj0 : Rch pts eps min_pts stack L (stack.getD k 0) :=
    .init _ (getD_mem _ _ _ hk) hnone
  induction h with
  | init j h1 h2 =>
    have hne : j ≠ stack.getD k 0 := by
      intro he
      rw [he, getD_set_self _ _ _ hj0lt] at h2
      exact Option.noConfusion h2
    have h2' : L.getD j (some 0) = none := by
      rw [getD_set_ne _ _ _ _ hne] at h2
      exact h2
    rcases List.mem_append.mp h1 with hm | hm
    · exact .init j (mem_of_mem_eraseIdx _ _ _ hm) h2'
    · exact .step _ j hj0 hcore hm h2'
  | step x j _ h2 h3 h4 ih =>
    have hne : j ≠ stack.getD k 0 := by
      intro he
      rw [he, getD_set_self _ _ _ hj0lt] at h4
      exact Option.noConfusion h4
    have h4' : L.getD j (some 0) = none := by
      rw [getD_set_ne _ _ _ _ hne] at h4
      exact h4
    exact .step x j ih h2 h3 h4'

lemma Rch_core_pop_from {stack : List ℕ} {L : List (Option ℕ)} {k : ℕ} {c : ℕ}
    (hk : k < stack.length)
    (_hnone : L.getD (stack.getD k 0) (some 0) = none)
    {j : ℕ} (h : Rch pts eps min_pts stack L j) :
    j = stack.getD k 0 ∨
      Rch pts eps min_pts (stack.eraseIdx k ++ nbhd pts eps (stack.getD k 0))
        (L.set (stack.getD k 0) (some c)) j := by
  induction h with
  | init j h1 h2 =>
    rcases eq_or_ne j (stack.getD k 0) with he | hne
    · exact Or.inl he
    · refine Or.inr (.init j (List.mem_append.mpr (Or.inl ?_)) ?_)
      · refine mem_eraseIdx_of_ne _ _ _ h1 hk ?_
        rw [getD_irrel _ _ _ 0 hk]
        exact hne
      · rw [getD_set_ne _ _ _ _ hne]
        exact h2
  | step x j hx h2 h3 h4 ih =>
    rcases eq_or_ne j (stack.getD k 0) with he | hne
    · exact Or.inl he
    · refine Or.inr ?_
      have h4' : (L.set (stack.getD k 0) (some c)).getD j (some 0) = none := by
        rw [getD_set_ne _ _ _ _ hne]
        exact h4
      rcases ih with he | hr
      · exact .init j (List.mem_append.mpr (Or.inr (he ▸ h3))) h4'
      · exact .step x j hr h2 h3 h4'

lemma Rch_border_pop_to {stack : List ℕ} {L : List (Option ℕ)} {k : ℕ} {c : ℕ}
    (_hk : k < stack.length)
    (hnone : L.getD (stack.getD k 0) (some 0) = none) {j : ℕ}
    (h : Rch pts eps min_pts (stack.eraseIdx k) (L.set (stack.getD k 0) (some c)) j) :
    Rch pts eps min_pts stack L j := by
  have hj0lt : stack.getD k 0 < L.length := lt_length_of_getD_none L _ hnone
  induction h with
  | init j h1 h2 =>
    have hne : j ≠ stack.getD k 0 := by
      intro he
      rw [he, getD_set_self _ _ _ hj0lt] at h2
      exact Option.noConfusion h2
    have h2' : L.getD j (some 0) = none := by
      rw [getD_set_ne _ _ _ _ hne] at h2
      exact h2
    exact .init j (mem_of_mem_eraseIdx _ _ _ h1) h2'
  | step x j _ h2 h3 h4 ih =>
    have hne : j ≠ stack.getD k 0 := by
      intro he
      rw [he, getD_set_self _ _ _ hj0lt] at h4
      exact Option.noConfusion h4
    have h4' : L.getD j (some 0) = none := by
      rw [getD_set_ne _ _ _ _ hne] at h4
      exact h4
    exact .step x j ih h2 h3 h4'

lemma Rch_border_pop_from {stack : List ℕ} {L : List (Option ℕ)} {k : ℕ} {c : ℕ}
    (hk : k < stack.length)
    (_hnone : L.getD (stack.getD k 0) (some 0) = none)
    (hnc : ¬ min_pts ≤ (nbhd pts eps (stack.getD k 0)).length)
    {j : ℕ} (h : Rch pts eps min_pts stack L j) :
    j = stack.getD k 0 ∨
      Rch pts eps min_pts (stack.eraseIdx k) (L.set (stack.getD k 0) (some c)) j := by
  induction h with
  | init j h1 h2 =>
    rcases eq_or_ne j (stack.getD k 0) with he | hne
    · exact Or.inl he
    · refine Or.inr (.init j ?_ ?_)
      · refine mem_eraseIdx_of_ne _ _ _ h1 hk ?_
        rw [getD_irrel _ _ _ 0 hk]
        exact hne
      · rw [getD_set_ne _ _ _ _ hne]
        exact h2
  | step x j hx h2 h3 h4 ih =>
    rcases eq_or_ne j (stack.getD k 0) with he | hne
    · exact Or.inl he
    · refine Or.inr ?_
      have h4' : (L.set (stack.getD k 0) (some c)).getD j (some 0) = none := by
        rw [getD_set_ne _ _ _ _ hne]
        exact h4
      rcases ih with he | hr
      · exact absurd (he ▸ h2) hnc
      · exact .step x j hr h2 h3 h4'

lemma nbhd_length_le (x : ℕ) : (nbhd pts eps x).length ≤ pts.length := by
  unfold nbhd queryBall
  exact (List.length_filter_le _ _).trans (by simp)

variable (σ : List ℕ → ℕ) (cid : ℕ)

lemma expand_zero (stack : List ℕ) (L : List (Option ℕ)) :
    expand σ pts eps min_pts cid 0 stack L = L := rfl

lemma expand_nil (fuel : ℕ) (L : List (Option ℕ)) :
    expand σ pts eps min_pts cid fuel [] L = L := by
  cases fuel with
  | zero => rfl
  | succ fuel => simp [expand]

lemma expand_succ_skip (fuel : ℕ) (stack : List ℕ) (L : List (Option ℕ))
    (hs : ¬ stack.length = 0)
    (hnone : ¬ L.getD (stack.getD (σ stack % stack.length) 0) (some 0) = none) :
    expand σ pts eps min_pts cid (fuel + 1) stack L
      = expand σ pts eps min_pts cid fuel (stack.eraseIdx (σ stack % stack.length)) L := by
  simp only [expand, if_neg hs, if_neg hnone]

lemma expand_succ_core (fuel : ℕ) (stack : List ℕ) (L : List (Option ℕ))
    (hs : ¬ stack.length = 0)
    (hnone : L.getD (stack.getD (σ stack % stack.length) 0) (some 0) = none)
    (hcore : min_pts ≤ (nbhd pts eps (stack.getD (σ stack % stack.length) 0)).length) :
    expand σ pts eps min_pts cid (fuel + 1) stack L
      = expand σ pts eps min_pts cid fuel
          (stack.eraseIdx (σ stack % stack.length)
            ++ nbhd pts eps (stack.getD (σ stack % stack.length) 0))
          (L.set (stack.getD (σ stack % stack.length) 0) (some cid)) := by
  simp only [expand, if_neg hs, if_pos hnone, if_pos hcore]

lemma expand_succ_border (fuel : ℕ) (stack : List ℕ) (L : List (Option ℕ))
    (hs : ¬ stack.length = 0)
    (hnone : L.getD (stack.getD (σ stack % stack.length) 0) (some 0) = none)
    (hnc : ¬ min_pts ≤ (nbhd pts eps (stack.getD (σ stack % stack.length) 0)).length) :
    expand σ pts eps min_pts cid (fuel + 1) stack L
      = expand σ pts eps min_pts cid fuel (stack.eraseIdx (σ stack % stack.length))
          (L.set (stack.getD (σ stack % stack.length) 0) (some cid)) := by
  simp only [expand, if_neg hs, if_pos hnone, if_neg hnc]

lemma expand_length (fuel : ℕ) (stack : List ℕ) (L : List (Option ℕ)) :
    (expand σ pts eps min_pts cid fuel stack L).length = L.length := by
  induction fuel generalizing stack L with
  | zero => rfl
  | succ fuel ih =>
    by_cases hs : stack.length = 0
    · have : stack = [] := List.length_eq_zero.mp hs
      rw [this, expand_nil]
    · by_cases hnone : L.getD (stack.getD (σ stack % stack.length) 0) (some 0) = none
      · by_cases hcore : min_pts ≤ (nbhd pts eps (stack.getD (σ stack % stack.length) 0)).length
        · rw [expand_succ_core pts eps min_pts σ cid fuel stack L hs hnone hcore, ih]
          simp
        · rw [expand_succ_border pts eps min_pts σ cid fuel stack L hs hnone hcore, ih]
          simp
      · rw [expand_succ_skip pts eps min_pts σ cid fuel stack L hs hnone, ih]

lemma expand_spec (fuel : ℕ) (stack : List ℕ) (L : List (Option ℕ))
    (hb : stack.length + L.countP Option.isNone * pts.length ≤ fuel) (j : ℕ) :
    (Rch pts eps min_pts stack L j →
      (expand σ pts eps min_pts cid fuel stack L).getD j (some 0) = some cid) ∧
    (¬ Rch pts eps min_pts stack L j →
      (expand σ pts eps min_pts cid fuel stack L).getD j (some 0) = L.getD j (some 0)) := by
  induction fuel generalizing stack L with
  | zero =>
    have hs : stack = [] := by
      cases stack with
      | nil => rfl
      | cons a t => simp at hb
    subst hs
    exact ⟨fun h => absurd h (fun h => Rch_nil pts eps min_pts h),
      fun _ => by rw [expand_zero]⟩
  | succ fuel ih =>
    by_cases hs : stack.length = 0
    · have hnil : stack = [] := List.length_eq_zero.mp hs
      subst hnil
      exact ⟨fun h => absurd h (fun h => Rch_nil pts eps min_pts h),
        fun _ => by rw [expand_nil]⟩
    · have hk : σ stack % stack.length < stack.length :=
        Nat.mod_lt _ (Nat.pos_of_ne_zero hs)
      have hlen1 : (stack.eraseIdx (σ stack % stack.length)).length = stack.length - 1 :=
        List.length_eraseIdx_of_lt hk
      by_cases hnone : L.getD (stack.getD (σ stack % stack.length) 0) (some 0) = none
      · have hj0r : Rch pts eps min_pts stack L (stack.getD (σ stack % stack.length) 0) :=
          .init _ (getD_mem _ _ _ hk) hnone
        have hj0lt : stack.getD (σ stack % stack.length) 0 < L.length :=
          lt_length_of_getD_none L _ hnone
        have hcnt := countP_set_none L (stack.getD (σ stack % stack.length) 0) cid hnone
        by_cases hcore : min_pts ≤ (nbhd pts eps (stack.getD (σ stack % stack.length) 0)).length
        · rw [expand_succ_core pts eps min_pts σ cid fuel stack L hs hnone hcore]
          have hnb := nbhd_length_le pts eps (stack.getD (σ stack % stack.length) 0)
          have hb' : (stack.eraseIdx (σ stack % stack.length)
                ++ nbhd pts eps (stack.getD (σ stack % stack.length) 0)).length
              + (L.set (stack.getD (σ stack % stack.length) 0)
                  (some cid)).countP Option.isNone * pts.length ≤ fuel := by
            rw [List.length_append, hlen1]
            have hmul : (L.countP Option.isNone) * pts.length
                = (L.set (stack.getD (σ stack % stack.length) 0)
                    (some cid)).countP Option.isNone * pts.length + pts.length := by
              rw [← hcnt]
              ring
            omega
          have ihs := ih _ _ hb'
          constructor
          · intro h
            rcases eq_or_ne j (stack.getD (σ stack % stack.length) 0) with he | hne
            · have hset : (L.set (stack.getD (σ stack % stack.length) 0)
                  (some cid)).getD (stack.getD (σ stack % stack.length) 0) (some 0) = some cid :=
                getD_set_self _ _ _ hj0lt
              have hnr : ¬ Rch pts eps min_pts
                  (stack.eraseIdx (σ stack % stack.length)
                    ++ nbhd pts eps (stack.getD (σ stack % stack.length) 0))
                  (L.set (stack.getD (σ stack % stack.length) 0) (some cid))
                  (stack.getD (σ stack % stack.length) 0) := by
                intro hr
                have := Rch_getD_none pts eps min_pts hr
                rw [hset] at this
                exact Option.noConfusion this
              rw [he]
              rw [he] at ihs
              rw [ihs.2 hnr, hset]
            · rcases Rch_core_pop_from pts eps min_pts hk hnone (c := cid) h with he | hr
              · exact absurd he hne
              · exact ihs.1 hr
          · intro h
            have hne : j ≠ stack.getD (σ stack % stack.length) 0 := by
              intro he
              exact h (he ▸ hj0r)
            have hnr : ¬ Rch pts eps min_pts
                (stack.eraseIdx (σ stack % stack.length)
                  ++ nbhd pts eps (stack.getD (σ stack % stack.length) 0))
                (L.set (stack.getD (σ stack % stack.length) 0) (some cid)) j := by
              intro hr
              exact h (Rch_core_pop_to pts eps min_pts hk hnone hcore hr)
            rw [ihs.2 hnr, getD_set_ne _ _ _ _ hne]
        · rw [expand_succ_border pts eps min_pts σ cid fuel stack L hs hnone hcore]
          have hb' : (stack.eraseIdx (σ stack % stack.length)).length
              + (L.set (stack.getD (σ stack % stack.length) 0)
                  (some cid)).countP Option.isNone * pts.length ≤ fuel := by
            rw [hlen1]
            have hmul : (L.countP Option.isNone) * pts.length
                = (L.set (stack.getD (σ stack % stack.length) 0)
                    (some cid)).countP Option.isNone * pts.length + pts.length := by
              rw [← hcnt]
              ring
            omega
          have ihs := ih _ _ hb'
          constructor
          · intro h
            rcases eq_or_ne j (stack.getD (σ stack % stack.length) 0) with he | hne
            · have hset : (L.set (stack.getD (σ stack % stack.length) 0)
                  (some cid)).getD (stack.getD (σ stack % stack.length) 0) (some 0) = some cid :=
                getD_set_self _ _ _ hj0lt
              have hnr : ¬ Rch pts eps min_pts (stack.eraseIdx (σ stack % stack.length))
                  (L.set (stack.getD (σ stack % stack.length) 0) (some cid))
                  (stack.getD (σ stack % stack.length) 0) := by
                intro hr
                have := Rch_getD_none pts eps min_pts hr
                rw [hset] at this
                exact Option.noConfusion this
              rw [he]
              rw [he] at ihs
              rw [ihs.2 hnr, hset]
            · rcases Rch_border_pop_from pts eps min_pts hk hnone hcore (c := cid) h with he | hr
              · exact absurd he hne
              · exact ihs.1 hr
          · intro h
            have hne : j ≠ stack.getD (σ stack % stack.length) 0 := by
              intro he
              exact h (he ▸ hj0r)
            have hnr : ¬ Rch pts eps min_pts (stack.eraseIdx (σ stack % stack.length))
                (L.set (stack.getD (σ stack % stack.length) 0) (some cid)) j := by
              intro hr
              exact h (Rch_border_pop_to pts eps min_pts hk hnone hr)
            rw [ihs.2 hnr, getD_set_ne _ _ _ _ hne]
      · rw [expand_succ_skip pts eps min_pts σ cid fuel stack L hs hnone]
        have hb' : (stack.eraseIdx (σ stack % stack.length)).length
            + L.countP Option.isNone * pts.length ≤ fuel := by
          rw [hlen1]
          omega
        have ihs := ih _ _ hb'
        constructor
        · intro h
          exact ihs.1 ((Rch_skip_iff pts eps min_pts hk hnone j).mpr h)
        · intro h
          exact ihs.2 (fun hr => h ((Rch_skip_iff pts eps min_pts hk hnone j).mp hr))

lemma expand_eq_of_bound (σ1 σ2 : List ℕ → ℕ) (fuel1 fuel2 : ℕ) (stack : List ℕ)
    (L : List (Option ℕ))
    (hb1 : stack.length + L.countP Option.isNone * pts.length ≤ fuel1)
    (hb2 : stack.length + L.countP Option.isNone * pts.length ≤ fuel2) :
    expand σ1 pts eps min_pts cid fuel1 stack L
      = expand σ2 pts eps min_pts cid fuel2 stack L := by
  have hlen1 := expand_length pts eps min_pts σ1 cid fuel1 stack L
  have hlen2 := expand_length pts eps min_pts σ2 cid fuel2 stack L
  refine List.ext_getElem (by rw [hlen1, hlen2]) ?_
  intro i h1 h2
  have e1 := expand_spec pts eps min_pts σ1 cid fuel1 stack L hb1 i
  have e2 := expand_spec pts eps min_pts σ2 cid fuel2 stack L hb2 i
  by_cases hr : Rch pts eps min_pts stack L i
  · have g1 := e1.1 hr
    have g2 := e2.1 hr
    rw [getD_eq_getElem' _ _ _ h1] at g1
    rw [getD_eq_getElem' _ _ _ h2] at g2
    rw [g1, g2]
  · have g1 := e1.2 hr
    have g2 := e2.2 hr
    rw [getD_eq_getElem' _ _ _ h1] at g1
    rw [getD_eq_getElem' _ _ _ h2] at g2
    rw [g1, g2]

lemma mem_nbhd_lt {x j : ℕ} (h : j ∈ nbhd pts eps x) : j < pts.length := by
  unfold nbhd queryBall at h
  have := List.mem_filter.mp h
  simpa using this.1

lemma inBall_symm (c p : Point) (r : ℚ) : inBall c r p = inBall p r c := by
  unfold inBall
  have : sqDist c p = sqDist p c := by
    unfold sqDist
    ring
  rw [this]

lemma mem_nbhd_symm {x y : ℕ} (hx : x < pts.length) (h : y ∈ nbhd pts eps x) :
    x ∈ nbhd pts eps y := by
  unfold nbhd queryBall at h ⊢
  have hm := List.mem_filter.mp h
  refine List.mem_filter.mpr ⟨by simpa using hx, ?_⟩
  rw [inBall_symm]
  exact hm.2

lemma clusterStep_already (st : List (Option ℕ) × ℕ) (i : ℕ)
    (h : ¬ st.1.getD i (some 0) = none) :
    clusterStep σ pts eps min_pts st i = st := by
  simp only [clusterStep, if_neg h]

lemma clusterStep_noise (st : List (Option ℕ) × ℕ) (i : ℕ)
    (h : st.1.getD i (some 0) = none) (hn : (nbhd pts eps i).length < min_pts) :
    clusterStep σ pts eps min_pts st i = st := by
  simp only [clusterStep, if_pos h, if_pos hn]

lemma clusterStep_expand (L : List (Option ℕ)) (c : ℕ) (i : ℕ)
    (h : L.getD i (some 0) = none) (hn : ¬ (nbhd pts eps i).length < min_pts) :
    clusterStep σ pts eps min_pts (L, c) i =
      (expand σ pts eps min_pts c
        ((nbhd pts eps i).length + (L.set i (some c)).countP Option.isNone * pts.length)
        (nbhd pts eps i) (L.set i (some c)), c + 1) := by
  simp only [clusterStep, if_pos h, if_neg hn]

lemma clusterStep_getD_pos {L : List (Option ℕ)} {c i j : ℕ}
    (h : L.getD i (some 0) = none) (hn : ¬ (nbhd pts eps i).length < min_pts)
    (hj : j = i ∨ Rch pts eps min_pts (nbhd pts eps i) (L.set i (some c)) j) :
    (clusterStep σ pts eps min_pts (L, c) i).1.getD j (some 0) = some c := by
  rw [clusterStep_expand pts eps min_pts σ L c i h hn]
  have hilt : i < L.length := lt_length_of_getD_none L i h
  rcases hj with he | hr
  · subst he
    have hset : (L.set j (some c)).getD j (some 0) = some c := getD_set_self _ _ _ hilt
    have hnr : ¬ Rch pts eps min_pts (nbhd pts eps j) (L.set j (some c)) j := by
      intro hrr
      have := Rch_getD_none pts eps min_pts hrr
      rw [hset] at this
      exact Option.noConfusion this
    have hrw := (expand_spec pts eps min_pts σ c _ (nbhd pts eps j) (L.set j (some c))
      (le_refl _) j).2 hnr
    exact hrw.trans hset
  · exact (expand_spec pts eps min_pts σ c _ (nbhd pts eps i) (L.set i (some c))
      (le_refl _) j).1 hr

lemma clusterStep_getD_neg {L : List (Option ℕ)} {c i j : ℕ}
    (h : L.getD i (some 0) = none) (hn : ¬ (nbhd pts eps i).length < min_pts)
    (hj : ¬ (j = i ∨ Rch pts eps min_pts (nbhd pts eps i) (L.set i (some c)) j)) :
    (clusterStep σ pts eps min_pts (L, c) i).1.getD j (some 0) = L.getD j (some 0) := by
  rw [clusterStep_expand pts eps min_pts σ L c i h hn]
  push_neg at hj
  have hrw := (expand_spec pts eps min_pts σ c _ (nbhd pts eps i) (L.set i (some c))
    (le_refl _) j).2 hj.2
  rw [getD_set_ne _ _ _ _ hj.1] at hrw
  exact hrw

lemma clusterStep_mono {L : List (Option ℕ)} {c : ℕ} (i j cv : ℕ)
    (h : L.getD j (some 0) = some cv) :
    (clusterStep σ pts eps min_pts (L, c) i).1.getD j (some 0) = some cv := by
  by_cases h0 : L.getD i (some 0) = none
  · by_cases hn : (nbhd pts eps i).length < min_pts
    · rw [clusterStep_noise pts eps min_pts σ (L, c) i h0 hn]
      exact h
    · refine (clusterStep_getD_neg pts eps min_pts σ h0 hn ?_).trans h
      rintro (he | hr)
      · rw [he] at h
        rw [h0] at h
        exact Option.noConfusion h
      · have hnone := Rch_getD_none pts eps min_pts hr
        have hne : j ≠ i := by
          intro he
          rw [he] at h
          rw [h0] at h
          exact Option.noConfusion h
        rw [getD_set_ne _ _ _ _ hne, h] at hnone
        exact Option.noConfusion hnone
  · rw [clusterStep_already pts eps min_pts σ (L, c) i h0]
    exact h

lemma clusterStep_length (st : List (Option ℕ) × ℕ) (i : ℕ) :
    (clusterStep σ pts eps min_pts st i).1.length = st.1.length := by
  obtain ⟨L, c⟩ := st
  by_cases h0 : L.getD i (some 0) = none
  · by_cases hn : (nbhd pts eps i).length < min_pts
    · rw [clusterStep_noise pts eps min_pts σ (L, c) i h0 hn]
    · rw [clusterStep_expand pts eps min_pts σ L c i h0 hn]
      have := expand_length pts eps min_pts σ c
        ((nbhd pts eps i).length + (L.set i (some c)).countP Option.isNone * pts.length)
        (nbhd pts eps i) (L.set i (some c))
      exact this.trans (by simp)
  · rw [clusterStep_already pts eps min_pts σ (L, c) i h0]

lemma clusterStep_I3 {L : List (Option ℕ)} {c : ℕ} (i : ℕ)
    (hI3 : ∀ x y cv, x < pts.length → y < pts.length →
      min_pts ≤ (nbhd pts eps x).length → min_pts ≤ (nbhd pts eps y).length →
      y ∈ nbhd pts eps x → L.getD x (some 0) = some cv → L.getD y (some 0) = some cv) :
    ∀ x y cv, x < pts.length → y < pts.length →
      min_pts ≤ (nbhd pts eps x).length → min_pts ≤ (nbhd pts eps y).length →
      y ∈ nbhd pts eps x →
      (clusterStep σ pts eps min_pts (L, c) i).1.getD x (some 0) = some cv →
      (clusterStep σ pts eps min_pts (L, c) i).1.getD y (some 0) = some cv := by
  intro x y cv hx hy hcx hcy hmem hlx
  by_cases h0 : L.getD i (some 0) = none
  · by_cases hn : (nbhd pts eps i).length < min_pts
    · rw [clusterStep_noise pts eps min_pts σ (L, c) i h0 hn] at hlx ⊢
      exact hI3 x y cv hx hy hcx hcy hmem hlx
    · by_cases hDx : x = i ∨ Rch pts eps min_pts (nbhd pts eps i) (L.set i (some c)) x
      · have hxc := clusterStep_getD_pos pts eps min_pts σ h0 hn hDx
        have hcveq : cv = c := by
          rw [hlx] at hxc
          exact Option.some.inj hxc
        subst hcveq
        have hLxnone : L.getD x (some 0) = none := by
          rcases hDx with he | hr
          · rw [he]
            exact h0
          · have hrn := Rch_getD_none pts eps min_pts hr
            have hne : x ≠ i := by
              intro hxe
              rw [hxe, getD_set_self _ _ _ (lt_length_of_getD_none L i h0)] at hrn
              exact Option.noConfusion hrn
            rw [getD_set_ne _ _ _ _ hne] at hrn
            exact hrn
        by_cases hLy : L.getD y (some 0) = none
        · have hDy : y = i ∨ Rch pts eps min_pts (nbhd pts eps i) (L.set i (some cv)) y := by
            rcases eq_or_ne y i with hye | hyne
            · exact Or.inl hye
            · refine Or.inr ?_
              have hLy' : (L.set i (some cv)).getD y (some 0) = none := by
                rw [getD_set_ne _ _ _ _ hyne]
                exact hLy
              rcases hDx with he | hr
              · exact .init y (he ▸ hmem) hLy'
              · exact .step x y hr hcx hmem hLy'
          exact clusterStep_getD_pos pts eps min_pts σ h0 hn hDy
        · rcases Option.ne_none_iff_exists'.mp hLy with ⟨cw, hcw⟩
          have hxw := hI3 y x cw hy hx hcy hcx (mem_nbhd_symm pts eps hx hmem) hcw
          rw [hLxnone] at hxw
          exact Option.noConfusion hxw
      · have hxold := clusterStep_getD_neg pts eps min_pts σ h0 hn hDx
        rw [hxold] at hlx
        have hyold := hI3 x y cv hx hy hcx hcy hmem hlx
        exact clusterStep_mono pts eps min_pts σ i y cv hyold
  · rw [clusterStep_already pts eps min_pts σ (L, c) i h0] at hlx ⊢
    exact hI3 x y cv hx hy hcx hcy hmem hlx

lemma clusterFold_inv (m : ℕ) :
    (((List.range m).foldl (clusterStep σ pts eps min_pts)
        (List.replicate pts.length none, 0)).1.length = pts.length)
    ∧ (∀ x y cv, x < pts.length → y < pts.length →
        min_pts ≤ (nbhd pts eps x).length → min_pts ≤ (nbhd pts eps y).length →
        y ∈ nbhd pts eps x →
        ((List.range m).foldl (clusterStep σ pts eps min_pts)
          (List.replicate pts.length none, 0)).1.getD x (some 0) = some cv →
        ((List.range m).foldl (clusterStep σ pts eps min_pts)
          (List.replicate pts.length none, 0)).1.getD y (some 0) = some cv)
    ∧ (∀ x, x < m → min_pts ≤ (nbhd pts eps x).length →
        ((List.range m).foldl (clusterStep σ pts eps min_pts)
          (List.replicate pts.length none, 0)).1.getD x (some 0) ≠ none) := by
  induction m with
  | zero =>
    refine ⟨by simp, ?_, ?_⟩
    · intro x y cv hx _ _ _ _ hlx
      rw [List.range_zero, List.foldl_nil] at hlx
      rw [getD_eq_getElem' _ _ _ (by simpa using hx)] at hlx
      simp at hlx
    · intro x hx
      omega
  | succ m ih =>
    obtain ⟨ihlen, ihI3, ihI4⟩ := ih
    rw [List.range_succ, List.foldl_append, List.foldl_cons, List.foldl_nil]
    generalize hG : (List.range m).foldl (clusterStep σ pts eps min_pts)
      (List.replicate pts.length none, 0) = st at ihlen ihI3 ihI4
    obtain ⟨L, c⟩ := st
    refine ⟨?_, ?_, ?_⟩
    · rw [clusterStep_length]
      exact ihlen
    · exact clusterStep_I3 pts eps min_pts σ m ihI3
    · intro x hx hcx
      rcases Nat.lt_succ_iff_lt_or_eq.mp hx with hlt | he
      · have h4 := ihI4 x hlt hcx
        rcases Option.ne_none_iff_exists'.mp h4 with ⟨cv, hcv⟩
        rw [clusterStep_mono pts eps min_pts σ m x cv hcv]
        simp
      · subst he
        by_cases h0 : L.getD x (some 0) = none
        · have hn : ¬ (nbhd pts eps x).length < min_pts := not_lt.mpr hcx
          rw [clusterStep_getD_pos pts eps min_pts σ h0 hn (Or.inl rfl)]
          simp
        · rw [clusterStep_already pts eps min_pts σ (L, c) x h0]
          exact h0

lemma cluster_length : (cluster σ pts eps min_pts).length = pts.length := by
  unfold cluster
  by_cases h : pts.length = 0
  · rw [if_pos h, h]
    rfl
  · rw [if_neg h]
    exact (clusterFold_inv pts eps min_pts σ pts.length).1

lemma cluster_I3 (x y cv : ℕ) (hx : x < pts.length) (hy : y < pts.length)
    (hcx : min_pts ≤ (nbhd pts eps x).length) (hcy : min_pts ≤ (nbhd pts eps y).length)
    (hmem : y ∈ nbhd pts eps x)
    (hlx : (cluster σ pts eps min_pts).getD x (some 0) = some cv) :
    (cluster σ pts eps min_pts).getD y (some 0) = some cv := by
  unfold cluster at hlx ⊢
  by_cases h : pts.length = 0
  · rw [h] at hx
    omega
  · rw [if_neg h] at hlx ⊢
    exact (clusterFold_inv pts eps min_pts σ pts.length).2.1 x y cv hx hy hcx hcy hmem hlx

lemma cluster_core_labelled (x : ℕ) (hx : x < pts.length)
    (hcx : min_pts ≤ (nbhd pts eps x).length) :
    (cluster σ pts eps min_pts).getD x (some 0) ≠ none := by
  unfold cluster
  by_cases h : pts.length = 0
  · rw [h] at hx
    omega
  · rw [if_neg h]
    exact (clusterFold_inv pts eps min_pts σ pts.length).2.2 x hx hcx

lemma clusterStep_indep (σ1 σ2 : List ℕ → ℕ) (st : List (Option ℕ) × ℕ) (i : ℕ) :
    clusterStep σ1 pts eps min_pts st i = clusterStep σ2 pts eps min_pts st i := by
  obtain ⟨L, c⟩ := st
  by_cases h0 : L.getD i (some 0) = none
  · by_cases hn : (nbhd pts eps i).length < min_pts
    · rw [clusterStep_noise pts eps min_pts σ1 (L, c) i h0 hn,
        clusterStep_noise pts eps min_pts σ2 (L, c) i h0 hn]
    · rw [clusterStep_expand pts eps min_pts σ1 L c i h0 hn,
        clusterStep_expand pts eps min_pts σ2 L c i h0 hn]
      rw [expand_eq_of_bound pts eps min_pts c σ1 σ2 _ _ (nbhd pts eps i)
        (L.set i (some c)) (le_refl _) (le_refl _)]
  · rw [clusterStep_already pts eps min_pts σ1 (L, c) i h0,
      clusterStep_already pts eps min_pts σ2 (L, c) i h0]

lemma foldl_funext {α β : Type} (f g : β → α → β) (h : ∀ b a, f b a = g b a) :
    ∀ (l : List α) (init : β), l.foldl f init = l.foldl g init := by
  intro l
  induction l with
  | nil =>
    intro init
    rfl
  | cons a t ih =>
    intro init
    rw [List.foldl_cons, List.foldl_cons, h, ih]

lemma cluster_indep (σ1 σ2 : List ℕ → ℕ) :
    cluster σ1 pts eps min_pts = cluster σ2 pts eps min_pts := by
  unfold cluster
  by_cases h : pts.length = 0
  · rw [if_pos h, if_pos h]
  · rw [if_neg h, if_neg h]
    rw [foldl_funext _ _ (clusterStep_indep pts eps min_pts σ1 σ2) _ _]

lemma coreChain_core {p q : ℕ} (h : CoreChain pts eps min_pts p q) :
    min_pts ≤ (nbhd pts eps q).length := by
  cases h with
  | refl h1 => exact h1
  | step x y h1 h2 h3 => exact h2

lemma coreChain_lt {p q : ℕ} (h : CoreChain pts eps min_pts p q) (hp : p < pts.length) :
    q < pts.length := by
  induction h with
  | refl h1 => exact hp
  | step x y h1 h2 h3 ih => exact mem_nbhd_lt pts eps h3

lemma cluster_label_of_chain {p q : ℕ} (h : CoreChain pts eps min_pts p q)
    (hp : p < pts.length) (cv : ℕ)
    (hl : (cluster σ pts eps min_pts).getD p (some 0) = some cv) :
    (cluster σ pts eps min_pts).getD q (some 0) = some cv := by
  induction h with
  | refl h1 => exact hl
  | step x y h1 h2 h3 ih =>
    have hy : x < pts.length := coreChain_lt pts eps min_pts h1 hp
    have hz : y < pts.length := mem_nbhd_lt pts eps h3
    have hyc : min_pts ≤ (nbhd pts eps x).length := coreChain_core pts eps min_pts h1
    exact cluster_I3 pts eps min_pts σ x y cv hy hz hyc h2 h3 ih

lemma mapME_ok_length {α β : Type} (f : α → Except String β) :
    ∀ (l : List α) (v : List β), mapME f l = .ok v → v.length = l.length := by
  intro l
  induction l with
  | nil =>
    intro v h
    simp only [mapME] at h
    injection h with h1
    rw [← h1]
    rfl
  | cons a t ih =>
    intro v h
    cases hfa : f a with
    | error e =>
      simp [mapME, hfa] at h
    | ok b =>
      cases hft : mapME f t with
      | error e =>
        simp [mapME, hfa, hft] at h
      | ok bs =>
        simp only [mapME, hfa, hft] at h
        injection h with h1
        rw [← h1]
        simp [ih bs hft]

lemma mapME_ok_forall {α β : Type} (f : α → Except String β) :
    ∀ (l : List α) (v : List β), mapME f l = .ok v →
      ∀ a ∈ l, ∃ b ∈ v, f a = .ok b := by
  intro l
  induction l with
  | nil =>
    intro v _ a ha
    cases ha
  | cons c t ih =>
    intro v h a ha
    cases hfa : f c with
    | error e =>
      simp [mapME, hfa] at h
    | ok b =>
      cases hft : mapME f t with
      | error e =>
        simp [mapME, hfa, hft] at h
      | ok bs =>
        simp only [mapME, hfa, hft] at h
        injection h with h1
        rcases List.mem_cons.mp ha with he | hm
        · exact ⟨b, by rw [← h1]; exact List.mem_cons_self _ _, he ▸ hfa⟩
        · rcases ih bs hft a hm with ⟨b', hb', hfb'⟩
          exact ⟨b', by rw [← h1]; exact List.mem_cons_of_mem _ hb', hfb'⟩

lemma mapME_ok_of_forall {α β : Type} (f : α → Except String β) :
    ∀ (l : List α), (∀ a ∈ l, ∃ b, f a = .ok b) →
      ∃ v, mapME f l = .ok v ∧ v.length = l.length := by
  intro l
  induction l with
  | nil =>
    intro _
    exact ⟨[], rfl, rfl⟩
  | cons a t ih =>
    intro h
    rcases h a (List.mem_cons_self _ _) with ⟨b, hb⟩
    rcases ih (fun c hc => h c (List.mem_cons_of_mem _ hc)) with ⟨v, hv, hlv⟩
    refine ⟨b :: v, ?_, by simp [hlv]⟩
    simp only [mapME, hb, hv]

lemma mapME_error_of_mem {α β : Type} (f : α → Except String β) :
    ∀ (l : List α) (a : α), a ∈ l → (∀ b, f a ≠ .ok b) →
      ∃ e, mapME f l = .error e := by
  intro l
  induction l with
  | nil =>
    intro a ha
    cases ha
  | cons c t ih =>
    intro a ha hne
    cases hfc : f c with
    | error e =>
      exact ⟨e, by simp only [mapME, hfc]⟩
    | ok b =>
      rcases List.mem_cons.mp ha with he | hm
      · exact absurd (he ▸ hfc) (hne b)
      · rcases ih a hm hne with ⟨e, he⟩
        exact ⟨e, by simp only [mapME, hfc, he]⟩

lemma toAtom_preserves (a : PyAtom) (b : Atom) (h : toAtom a = .ok b) :
    b.x = a.x ∧ b.y = a.y ∧ b.z = a.z := by
  unfold toAtom at h
  cases hch : a.chain with
  | none => simp [hch] at h
  | some ch =>
    cases hrs : a.resseq with
    | none => simp [hch, hrs] at h
    | some rs =>
      cases hrn : a.resname with
      | none => simp [hch, hrs, hrn] at h
      | some rn =>
        simp only [hch, hrs, hrn] at h
        injection h with h1
        rw [← h1]
        exact ⟨rfl, rfl, rfl⟩

lemma toAtom_ok_of_wellFormed (a : PyAtom) (hwf : wellFormed a) :
    ∃ b, toAtom a = .ok b := by
  obtain ⟨_, _, _, hch, hrs, hrn⟩ := hwf
  rcases Option.isSome_iff_exists.mp hch with ⟨ch, hch'⟩
  rcases Option.isSome_iff_exists.mp hrs with ⟨rs, hrs'⟩
  rcases Option.isSome_iff_exists.mp hrn with ⟨rn, hrn'⟩
  exact ⟨⟨a.x, a.y, a.z, ch, rs, rn⟩, by simp only [toAtom, hch', hrs', hrn']⟩

lemma coordOf_ok_of_some (b : Atom) (hx : b.x.isSome) (hy : b.y.isSome) (hz : b.z.isSome) :
    ∃ c, coordOf b = .ok c := by
  rcases Option.isSome_iff_exists.mp hx with ⟨xv, hx'⟩
  rcases Option.isSome_iff_exists.mp hy with ⟨yv, hy'⟩
  rcases Option.isSome_iff_exists.mp hz with ⟨zv, hz'⟩
  exact ⟨(xv, yv, zv), by simp only [coordOf, hx', hy', hz']⟩

lemma coordOf_not_ok (b : Atom) (h : b.x = none ∨ b.y = none ∨ b.z = none) :
    ∀ c, coordOf b ≠ .ok c := by
  intro c hc
  unfold coordOf at hc
  cases hx : b.x with
  | none => simp [hx] at hc
  | some xv =>
    cases hy : b.y with
    | none => simp [hx, hy] at hc
    | some yv =>
      cases hz : b.z with
      | none => simp [hx, hy, hz] at hc
      | some zv =>
        rcases h with h1 | h1 | h1
        · rw [hx] at h1
          exact Option.noConfusion h1
        · rw [hy] at h1
          exact Option.noConfusion h1
        · rw [hz] at h1
          exact Option.noConfusion h1

lemma mem_insertK {α : Type} (key : α → ℚ) (a x : α) :
    ∀ l : List α, x ∈ insertK key a l ↔ x = a ∨ x ∈ l := by
  intro l
  induction l with
  | nil => simp [insertK]
  | cons b t ih =>
    simp only [insertK]
    split
    · rw [List.mem_cons, ih, List.mem_cons]
      tauto
    · rw [List.mem_cons, List.mem_cons]

lemma mem_sortByKey {α : Type} (key : α → ℚ) (x : α) (l : List α) :
    x ∈ sortByKey key l ↔ x ∈ l := by
  unfold sortByKey
  suffices h : ∀ (l acc : List α),
      (x ∈ l.foldl (fun acc a => insertK key a acc) acc ↔ x ∈ acc ∨ x ∈ l) by
    rw [h l []]
    simp
  intro l
  induction l with
  | nil =>
    intro acc
    simp
  | cons a t ih =>
    intro acc
    rw [List.foldl_cons, ih, mem_insertK, List.mem_cons]
    tauto

lemma SP_ok_cases {M : MathFns} {delaunay : List Point → Option (List Simplex)}
    {σv : List ℕ → ℕ} {mol : List PyAtom} {mr Mr epsv : ℚ} {ms : ℕ} {out : Output}
    (h : Scientific_Pockets M delaunay σv mol mr Mr epsv ms = .ok (.ok out)) :
    out = ⟨[], ⟨0, none⟩⟩ ∨
    ∃ atoms res coords simplices,
      load_atoms mol = .ok (atoms, res) ∧ buildCoords atoms = .ok coords ∧
      ¬ coords.length < 4 ∧ delaunay coords = some simplices ∧
      (alphaSpheres M coords simplices mr Mr).length ≠ 0 ∧
      out = buildOutput M coords atoms (alphaSpheres M coords simplices mr Mr)
        (cluster σv ((alphaSpheres M coords simplices mr Mr).map (·.1)) epsv ms) := by
  unfold Scientific_Pockets at h
  cases hl : load_atoms mol with
  | error e =>
    simp [hl] at h
  | ok ares =>
    simp only [hl] at h
    cases hc : buildCoords ares.1 with
    | error e =>
      simp [hc] at h
    | ok coords =>
      simp only [hc] at h
      by_cases hlen : coords.length < 4
      · rw [if_pos hlen] at h
        simp at h
      · rw [if_neg hlen] at h
        cases hd : delaunay coords with
        | none =>
          simp [hd] at h
        | some simplices =>
          simp only [hd] at h
          by_cases hz : (alphaSpheres M coords simplices mr Mr).length = 0
          · rw [if_pos hz] at h
            exact Or.inl (SPResult.ok.inj (Except.ok.inj h)).symm
          · rw [if_neg hz] at h
            refine Or.inr ⟨ares.1, ares.2, coords, simplices, ?_, hc, hlen, hd, hz,
              (SPResult.ok.inj (Except.ok.inj h)).symm⟩
            rfl

lemma mapME_ok_forall_rev {α β : Type} (f : α → Except String β) :
    ∀ (l : List α) (v : List β), mapME f l = .ok v →
      ∀ b ∈ v, ∃ a ∈ l, f a = .ok b := by
  intro l
  induction l with
  | nil =>
    intro v h b hb
    simp only [mapME] at h
    injection h with h1
    rw [← h1] at hb
    cases hb
  | cons c t ih =>
    intro v h b hb
    cases hfc : f c with
    | error e =>
      simp [mapME, hfc] at h
    | ok bc =>
      cases hft : mapME f t with
      | error e =>
        simp [mapME, hfc, hft] at h
      | ok bs =>
        simp only [mapME, hfc, hft] at h
        injection h with h1
        rw [← h1] at hb
        rcases List.mem_cons.mp hb with he | hm
        · exact ⟨c, List.mem_cons_self _ _, he ▸ hfc⟩
        · rcases ih bs hft b hm with ⟨a, ha, hfa⟩
          exact ⟨a, List.mem_cons_of_mem _ ha, hfa⟩

/-- C1: every pocket returned by Scientific_Pockets carries a druggability
field equal to the clamped product of the four factors computed from the
pocket's own stored n_spheres, avg_hydrophobicity, solvent_exposure and
polar_frac fields, and that field therefore lies in the interval 0 to 1. -/
theorem c1_druggability_clamped (M : MathFns) (delaunay : List Point → Option (List Simplex))
    (σv : List ℕ → ℕ) (mol : List PyAtom) (mr Mr epsv : ℚ) (ms : ℕ) (out : Output)
    (h : Scientific_Pockets M delaunay σv mol mr Mr epsv ms = .ok (.ok out)) :
    ∀ p ∈ out.pockets,
      p.druggability = max 0 (min 1 (M.tanh ((p.n_spheres : ℚ) / 50)
        * M.exp (-((p.avg_hydrophobicity - 3/2)^2) / (2 * (3/2 : ℚ)^2))
        * (1 - |p.solvent_exposure - 2/5|) * (1 - p.polar_frac)))
      ∧ 0 ≤ p.druggability ∧ p.druggability ≤ 1 := by
  intro p hp
  rcases SP_ok_cases h with hout | ⟨atoms, res, coords, simplices, _, _, _, _, _, hout⟩
  · rw [hout] at hp
    simp at hp
  · rw [hout] at hp
    unfold buildOutput at hp
    simp only [] at hp
    rw [mem_sortByKey] at hp
    rcases List.mem_map.mp hp with ⟨pid, _, hpeq⟩
    subst hpeq
    refine ⟨rfl, le_max_left _ _, max_le zero_le_one (min_le_left _ _)⟩

/-- Witness for C1 at a concrete four-atom input producing one pocket. -/
theorem c1_druggability_clamped_witness : 0 ≤ pW.druggability ∧ pW.druggability ≤ 1 := by
  have h := c1_druggability_clamped M0 d4 σ0 molT 0 6 4 1 outW (by decide) pW (by decide)
  exact ⟨h.2.1, h.2.2⟩

/-- C2: for a valid input whose triangulation succeeds, every retained
alpha-sphere radius lies between min_radius and max_radius, and the
alpha_spheres count of a successful run is exactly the number of retained
spheres, so discarded circumspheres contribute to neither. -/
theorem c2_alpha_radius_in_range (M : MathFns) (delaunay : List Point → Option (List Simplex))
    (σv : List ℕ → ℕ) (mol : List PyAtom) (mr Mr epsv : ℚ) (ms : ℕ)
    (atoms : List Atom) (res : List ((String × ℤ × String) × List ℕ)) (coords : List Point)
    (simplices : List Simplex)
    (hl : load_atoms mol = .ok (atoms, res)) (hc : buildCoords atoms = .ok coords)
    (hlen : 4 ≤ coords.length) (hd : delaunay coords = some simplices) :
    (∀ sp ∈ alphaSpheres M coords simplices mr Mr, mr ≤ sp.2.1 ∧ sp.2.1 ≤ Mr)
    ∧ ∀ out : Output, Scientific_Pockets M delaunay σv mol mr Mr epsv ms = .ok (.ok out) →
        out.meta.alpha_spheres = (alphaSpheres M coords simplices mr Mr).length := by
  constructor
  · intro sp hs
    rcases List.mem_filterMap.mp hs with ⟨t, _, hf⟩
    split at hf
    · simp at hf
    · rename_i cr hcr
      split at hf
      · rename_i hcond
        have hsp := Option.some.inj hf
        rw [← hsp]
        exact hcond
      · simp at hf
  · intro out hout
    unfold Scientific_Pockets at hout
    simp only [hl] at hout
    simp only [hc] at hout
    rw [if_neg (by omega)] at hout
    simp only [hd] at hout
    by_cases hz : (alphaSpheres M coords simplices mr Mr).length = 0
    · rw [if_pos hz] at hout
      have heq := SPResult.ok.inj (Except.ok.inj hout)
      rw [← heq]
      exact hz.symm
    · rw [if_neg hz] at hout
      have heq := SPResult.ok.inj (Except.ok.inj hout)
      rw [← heq]
      unfold buildOutput
      simp

/-- Witness for C2 at a concrete input with one retained alpha-sphere. -/
theorem c2_alpha_radius_in_range_witness :
    (∀ sp ∈ alphaSpheres M2 coordsT [(0, 1, 2, 3)] 1 6, 1 ≤ sp.2.1 ∧ sp.2.1 ≤ 6)
    ∧ ∀ out : Output, Scientific_Pockets M2 d4 σ0 molT 1 6 4 10 = .ok (.ok out) →
        out.meta.alpha_spheres = (alphaSpheres M2 coordsT [(0, 1, 2, 3)] 1 6).length :=
  c2_alpha_radius_in_range M2 d4 σ0 molT 1 6 4 10 atomsT resT coordsT [(0, 1, 2, 3)]
    (by decide) (by decide) (by decide) (by decide)

/-- C3: the labelling produced by cluster never assigns two different
non-noise cluster labels to two points that are mutually density-reachable,
density-reachability being a chain of core points consecutive within eps. -/
theorem c3_clusters_not_density_reachable (σv : List ℕ → ℕ) (points : List Point)
    (epsv : ℚ) (mp : ℕ) (p q a b : ℕ)
    (hp : (cluster σv points epsv mp).getD p none = some a)
    (hq : (cluster σv points epsv mp).getD q none = some b)
    (hab : a ≠ b) :
    ¬ (CoreChain points epsv mp p q ∧ CoreChain points epsv mp q p) := by
  rintro ⟨hpq, _⟩
  have hplen : p < (cluster σv points epsv mp).length := by
    by_contra hcon
    push_neg at hcon
    rw [getD_eq_default _ _ _ hcon] at hp
    exact Option.noConfusion hp
  have hqlen : q < (cluster σv points epsv mp).length := by
    by_contra hcon
    push_neg at hcon
    rw [getD_eq_default _ _ _ hcon] at hq
    exact Option.noConfusion hq
  have hp0 : (cluster σv points epsv mp).getD p (some 0) = some a := by
    rw [getD_irrel _ _ _ none hplen]
    exact hp
  have hplen' : p < points.length := by
    rw [← cluster_length points epsv mp σv]
    exact hplen
  have hchain := cluster_label_of_chain points epsv mp σv hpq hplen' a hp0
  rw [getD_irrel _ _ _ none hqlen, hq] at hchain
  exact hab (Option.some.inj hchain).symm

/-- Witness for C3: two far-apart singleton clusters with labels 0 and 1. -/
theorem c3_clusters_not_density_reachable_witness :
    ¬ (CoreChain pts2 1 1 0 1 ∧ CoreChain pts2 1 1 1 0) :=
  c3_clusters_not_density_reachable σ0 pts2 1 1 0 1 0 1 (by decide) (by decide) (by decide)

/-- C4: an input of fewer than four well-formed atoms yields the structured
error dictionary Too few atoms, not an exception. -/
theorem c4_too_few_atoms (M : MathFns) (delaunay : List Point → Option (List Simplex))
    (σv : List ℕ → ℕ) (mol : List PyAtom) (mr Mr epsv : ℚ) (ms : ℕ)
    (hlen : mol.length < 4) (hwf : ∀ a ∈ mol, wellFormed a) :
    Scientific_Pockets M delaunay σv mol mr Mr epsv ms = .ok (.errObj "Too few atoms") := by
  have h1 : ∀ a ∈ mol, ∃ b, toAtom a = .ok b :=
    fun a ha => toAtom_ok_of_wellFormed a (hwf a ha)
  rcases mapME_ok_of_forall toAtom mol h1 with ⟨atoms, hmap, hlena⟩
  have h2 : ∀ b ∈ atoms, ∃ c, coordOf b = .ok c := by
    intro b hb
    rcases mapME_ok_forall_rev toAtom mol atoms hmap b hb with ⟨a, ha, hfa⟩
    obtain ⟨hbx, hby, hbz⟩ := toAtom_preserves a b hfa
    obtain ⟨hx, hy, hz, _, _, _⟩ := hwf a ha
    exact coordOf_ok_of_some b (by rw [hbx]; exact hx) (by rw [hby]; exact hy)
      (by rw [hbz]; exact hz)
  rcases mapME_ok_of_forall coordOf atoms h2 with ⟨coords, hco, hlenc⟩
  have hload : load_atoms mol = .ok (atoms, buildResidues atoms) := by
    unfold load_atoms
    simp only [hmap]
  have hcoords : buildCoords atoms = .ok coords := by
    unfold buildCoords
    exact hco
  unfold Scientific_Pockets
  simp only [hload]
  simp only [hcoords]
  rw [if_pos (by omega)]

/-- Witness for C4 at a concrete three-atom input. -/
theorem c4_too_few_atoms_witness :
    mol3.length < 4
    ∧ Scientific_Pockets M2 d4 σ0 mol3 (9/5) 6 4 6 = .ok (.errObj "Too few atoms") :=
  ⟨by decide, c4_too_few_atoms M2 d4 σ0 mol3 (9/5) 6 4 6 (by decide) (by decide)⟩

/-- C5: with at least four atoms, a successful triangulation and no
circumsphere radius inside the filter interval, the result is the empty
pocket list with alpha_spheres equal to 0 and no clusters key, not an error. -/
theorem c5_zero_alpha_spheres (M : MathFns) (delaunay : List Point → Option (List Simplex))
    (σv : List ℕ → ℕ) (mol : List PyAtom) (mr Mr epsv : ℚ) (ms : ℕ)
    (atoms : List Atom) (res : List ((String × ℤ × String) × List ℕ)) (coords : List Point)
    (simplices : List Simplex)
    (hl : load_atoms mol = .ok (atoms, res)) (hc : buildCoords atoms = .ok coords)
    (hlen : 4 ≤ coords.length) (hd : delaunay coords = some simplices)
    (hz : alphaSpheres M coords simplices mr Mr = []) :
    Scientific_Pockets M delaunay σv mol mr Mr epsv ms = .ok (.ok ⟨[], ⟨0, none⟩⟩) := by
  unfold Scientific_Pockets
  simp only [hl]
  simp only [hc]
  rw [if_neg (by omega)]
  simp only [hd]
  rw [if_pos (by rw [hz]; rfl)]

/-- Witness for C5: a tetrahedron whose single circumsphere radius is out of
range. -/
theorem c5_zero_alpha_spheres_witness :
    Scientific_Pockets M100 d4 σ0 molT (9/5) 6 4 6 = .ok (.ok ⟨[], ⟨0, none⟩⟩) :=
  c5_zero_alpha_spheres M100 d4 σ0 molT (9/5) 6 4 6 atomsT resT coordsT [(0, 1, 2, 3)]
    (by decide) (by decide) (by decide) (by decide) (by decide)

/-- C6 counterexample: a successful zero-alpha-sphere run returns a meta
dictionary without the clusters key, refuting the claim that every successful
result carries both meta keys. -/
theorem c6_counterexample :
    Scientific_Pockets M100 d4 σ0 molT (9/5) 6 4 6 = .ok (.ok outZ)
    ∧ outZ.meta.clusters = none := ⟨by decide, rfl⟩

/-- C6 amended: every successful result has the pockets list and a meta
object always containing alpha_spheres, while the clusters key is present
exactly when at least one alpha-sphere survived the radius filter. -/
theorem c6_output_shape (M : MathFns) (delaunay : List Point → Option (List Simplex))
    (σv : List ℕ → ℕ) (mol : List PyAtom) (mr Mr epsv : ℚ) (ms : ℕ) (out : Output)
    (h : Scientific_Pockets M delaunay σv mol mr Mr epsv ms = .ok (.ok out)) :
    out.meta.clusters.isSome ↔ out.meta.alpha_spheres ≠ 0 := by
  rcases SP_ok_cases h with hout | ⟨atoms, res, coords, simplices, _, _, _, _, hz, hout⟩
  · rw [hout]
    simp
  · rw [hout]
    unfold buildOutput
    simp [hz]

/-- Witness for the amended C6 at a concrete successful run. -/
theorem c6_output_shape_witness : outZ.meta.clusters.isSome ↔ outZ.meta.alpha_spheres ≠ 0 :=
  c6_output_shape M100 d4 σ0 molT (9/5) 6 4 6 outZ (by decide)

/-- C7 counterexample: an atom list whose first atom lacks the x key makes
Scientific_Pockets raise a KeyError that crosses the module boundary, instead
of returning a structured error value. -/
theorem c7_counterexample :
    Scientific_Pockets M2 d4 σ0 molBad (9/5) 6 4 6 = .error "KeyError: x" := by decide

/-- C7 amended: an input with a missing coordinate field is fatal, but it
surfaces as an uncaught KeyError exception escaping Scientific_Pockets, not
as a structured error result. -/
theorem c7_missing_coordinate_raises (M : MathFns)
    (delaunay : List Point → Option (List Simplex)) (σv : List ℕ → ℕ) (mol : List PyAtom)
    (mr Mr epsv : ℚ) (ms : ℕ)
    (hbad : ∃ a ∈ mol, a.x = none ∨ a.y = none ∨ a.z = none) :
    ∃ err, Scientific_Pockets M delaunay σv mol mr Mr epsv ms = .error err := by
  unfold Scientific_Pockets
  cases hl : load_atoms mol with
  | error e => exact ⟨e, rfl⟩
  | ok ares =>
    unfold load_atoms at hl
    cases hm : mapME toAtom mol with
    | error e =>
      simp [hm] at hl
    | ok atoms =>
      simp only [hm] at hl
      have hares : ares = (atoms, buildResidues atoms) := (Except.ok.inj hl).symm
      obtain ⟨a, ha, hxyz⟩ := hbad
      obtain ⟨b, hb, hfb⟩ := mapME_ok_forall toAtom mol atoms hm a ha
      obtain ⟨hbx, hby, hbz⟩ := toAtom_preserves a b hfb
      have hnb : ∀ c, coordOf b ≠ .ok c :=
        coordOf_not_ok b (by rw [hbx, hby, hbz]; exact hxyz)
      obtain ⟨e, he⟩ := mapME_error_of_mem coordOf atoms b hb hnb
      refine ⟨e, ?_⟩
      rw [hares]
      have hbc : buildCoords atoms = .error e := by
        unfold buildCoords
        exact he
      simp [hbc]

/-- Witness for the amended C7 at a concrete input lacking an x coordinate. -/
theorem c7_missing_coordinate_raises_witness :
    (∃ a ∈ molBad, a.x = none ∨ a.y = none ∨ a.z = none)
    ∧ ∃ err, Scientific_Pockets M2 d4 σ0 molBad (9/5) 6 4 6 = .error err :=
  ⟨by decide, c7_missing_coordinate_raises M2 d4 σ0 molBad (9/5) 6 4 6 (by decide)⟩

/-- C8 counterexample: on five coincident points, cluster with its actual
default min_pts labels one cluster, while min_pts 6 labels everything noise,
so the default does not behave like min_pts 6. -/
theorem c8_counterexample : cluster σ0 pts5 ≠ cluster σ0 pts5 4 6 := by decide

/-- C8 amended: the clusterer's own min_pts default is 5, not 6; the 6 of the
spec is the min_samples default of Scientific_Pockets, which is always passed
down explicitly. -/
theorem c8_default_min_pts_five :
    (∀ (σv : List ℕ → ℕ) (points : List Point) (epsv : ℚ),
      cluster σv points epsv = cluster σv points epsv 5)
    ∧ ∀ (M : MathFns) (delaunay : List Point → Option (List Simplex))
        (σv : List ℕ → ℕ) (mol : List PyAtom) (mr Mr epsv : ℚ),
        Scientific_Pockets M delaunay σv mol mr Mr epsv
          = Scientific_Pockets M delaunay σv mol mr Mr epsv 6 :=
  ⟨fun _ _ _ => rfl, fun _ _ _ _ _ _ _ => rfl⟩

/-- C9: a singular simplex in the triangulation is skipped locally; the whole
pipeline output equals the output obtained from the triangulation without
that simplex, and no error is produced on its account. -/
theorem c9_singular_simplex_skipped (M : MathFns) (σv : List ℕ → ℕ) (mol : List PyAtom)
    (mr Mr epsv : ℚ) (ms : ℕ) (d1 d2 : List Point → Option (List Simplex))
    (atoms : List Atom) (res : List ((String × ℤ × String) × List ℕ)) (coords : List Point)
    (pre post : List Simplex) (sx : Simplex)
    (hl : load_atoms mol = .ok (atoms, res)) (hc : buildCoords atoms = .ok coords)
    (hd1 : d1 coords = some (pre ++ sx :: post)) (hd2 : d2 coords = some (pre ++ post))
    (hsing : circumsphere M (coords.getD sx.1 default) (coords.getD sx.2.1 default)
      (coords.getD sx.2.2.1 default) (coords.getD sx.2.2.2 default) = none) :
    Scientific_Pockets M d1 σv mol mr Mr epsv ms
      = Scientific_Pockets M d2 σv mol mr Mr epsv ms := by
  have hAS : alphaSpheres M coords (pre ++ sx :: post) mr Mr
      = alphaSpheres M coords (pre ++ post) mr Mr := by
    unfold alphaSpheres
    rw [List.filterMap_append, List.filterMap_append]
    congr 1
    rw [List.filterMap_cons_none]
    simp only [List.getD_eq_getElem?_getD] at hsing
    simp [hsing]
  unfold Scientific_Pockets
  simp only [hl]
  simp only [hc]
  by_cases hlen : coords.length < 4
  · rw [if_pos hlen, if_pos hlen]
  · rw [if_neg hlen, if_neg hlen]
    simp only [hd1, hd2, hAS]

/-- Witness for C9: a degenerate simplex of four repeated indices next to a
proper tetrahedron. -/
theorem c9_singular_simplex_skipped_witness :
    Scientific_Pockets M2 d4deg σ0 molT (9/5) 6 4 10
      = Scientific_Pockets M2 d4 σ0 molT (9/5) 6 4 10 :=
  c9_singular_simplex_skipped M2 σ0 molT (9/5) 6 4 10 d4deg d4 atomsT resT coordsT
    [] [(0, 1, 2, 3)] (0, 0, 0, 0) (by decide) (by decide) (by decide) (by decide) (by decide)

/-- C10: Scientific_Pockets is deterministic: the arbitrary choices of
set.pop, modelled by the strategy argument, never change the result, so two
runs on identical input and parameters return identical results. -/
theorem c10_deterministic (M : MathFns) (delaunay : List Point → Option (List Simplex))
    (mol : List PyAtom) (mr Mr epsv : ℚ) (ms : ℕ) (σ1 σ2 : List ℕ → ℕ) :
    Scientific_Pockets M delaunay σ1 mol mr Mr epsv ms
      = Scientific_Pockets M delaunay σ2 mol mr Mr epsv ms := by
  unfold Scientific_Pockets
  have h : @cluster σ1 = @cluster σ2 :=
    funext fun points => funext fun e => funext fun m => cluster_indep points e m σ1 σ2
  rw [h]

end PV
